import Mathlib

/-!
Verification of the visual regression engine of the sitetester repository.

The development shallowly embeds:
  - src/utils/dom_diff.py      (compare_dom_elements)
  - src/main.py                (extraction_script, compare_images_logic,
                                 process_image_diff)

Machine-level conventions: Python ints and pixel channels are Nat; Python
float arithmetic on pixel scaling and the score is idealised to exact
rational arithmetic (int() of a nonnegative value is the floor); the rect
payload carried through the DOM differ is never inspected, so it is a type
parameter.
-/

namespace SiteTester

/-! ## Data model for DOM snapshots (src/main.py extraction output,
consumed by src/utils/dom_diff.py) -/

/-- The six computed style properties read by both the extraction script
and the DOM differ (target_styles in dom_diff.py). -/
inductive StyleProp where
  | color
  | backgroundColor
  | fontFamily
  | fontSize
  | fontWeight
  | textAlign
deriving DecidableEq, Repr

/-- target_styles list of dom_diff.py, in source order. -/
def targetStyles : List StyleProp :=
  [StyleProp.color, StyleProp.backgroundColor, StyleProp.fontFamily,
   StyleProp.fontSize, StyleProp.fontWeight, StyleProp.textAlign]

/-- The styles dict of an element snapshot, restricted to the six keys the
code ever reads; a missing key reads as none (dict.get semantics). -/
structure Styles where
  color : Option String
  backgroundColor : Option String
  fontFamily : Option String
  fontSize : Option String
  fontWeight : Option String
  textAlign : Option String
deriving DecidableEq, Repr

/-- styles.get(prop) of dom_diff.py. -/
def Styles.get (s : Styles) : StyleProp → Option String
  | StyleProp.color => s.color
  | StyleProp.backgroundColor => s.backgroundColor
  | StyleProp.fontFamily => s.fontFamily
  | StyleProp.fontSize => s.fontSize
  | StyleProp.fontWeight => s.fontWeight
  | StyleProp.textAlign => s.textAlign

/-- One element snapshot as consumed by compare_dom_elements.  The rect
payload ρ is only copied into diff entries, never inspected, so it stays a
type parameter.  A missing id reads as the empty string (falsy in Python,
and never equal to a non-empty compare id). -/
structure Element (ρ : Type) where
  tag : String
  id : String
  text : String
  rect : ρ
  styles : Styles
deriving DecidableEq, Repr

/-- One entry of the style_diffs dict: property, old value, new value. -/
structure StyleDiff where
  prop : StyleProp
  old : Option String
  new : Option String
deriving DecidableEq, Repr

/-- A diff object produced by compare_dom_elements: a dict whose type key
is style_change, added or removed. -/
inductive DiffEntry (ρ : Type) where
  | style_change (rect : ρ) (diffs : List StyleDiff) (tag : String) (text : String)
  | added (rect : ρ) (tag : String) (text : String)
  | removed (rect : ρ) (tag : String) (text : String)
deriving DecidableEq, Repr

def DiffEntry.isAdded {ρ : Type} : DiffEntry ρ → Bool
  | DiffEntry.added _ _ _ => true
  | _ => false

def DiffEntry.isRemoved {ρ : Type} : DiffEntry ρ → Bool
  | DiffEntry.removed _ _ _ => true
  | _ => false

/-! ## compare_dom_elements (src/utils/dom_diff.py, lines 4-89) -/

/-- The two match loops of dom_diff.py over the working dict of unmatched
base elements (insertion order = original index order).  Priority 1: if
the compare element has a truthy (non-empty) id, the first remaining base
element with the same id and same tag.  Priority 2 (no id, or priority 1
found nothing): the first remaining base element with the same tag and
identical text. -/
def findMatch {ρ : Type} (um : List (Nat × Element ρ)) (c : Element ρ) :
    Option (Nat × Element ρ) :=
  match (if c.id ≠ "" then
          um.find? (fun p => decide (p.2.id = c.id ∧ p.2.tag = c.tag))
         else none) with
  | some p => some p
  | none => um.find? (fun p => decide (p.2.tag = c.tag ∧ p.2.text = c.text))

/-- The style_diffs dict built for a matched pair: for each of the six
target properties in source order, an old and new record when the values
differ. -/
def styleDiffs (bs cs : Styles) : List StyleDiff :=
  targetStyles.filterMap (fun p =>
    if bs.get p ≠ cs.get p then some ⟨p, bs.get p, cs.get p⟩ else none)

/-- The entry appended for a matched pair: a style_change dict (rect taken
from the compare element) when style_diffs is non-empty, nothing
otherwise. -/
def matchEntry {ρ : Type} (b c : Element ρ) : Option (DiffEntry ρ) :=
  if styleDiffs b.styles c.styles = [] then none
  else some (DiffEntry.style_change c.rect (styleDiffs b.styles c.styles) c.tag c.text)

/-- The main loop over compare_elements: each compare element either pops
its match from the working set (emitting an optional style_change) or
emits an added entry.  Returns the emitted entries in order together with
the final working set (the never-matched base elements). -/
def passCompare {ρ : Type} (um : List (Nat × Element ρ)) :
    List (Element ρ) → List (DiffEntry ρ) × List (Nat × Element ρ)
  | [] => ([], um)
  | c :: cs =>
    match findMatch um c with
    | some (i, b) =>
      let r := passCompare (um.filter (fun q => decide (q.1 ≠ i))) cs
      ((matchEntry b c).toList ++ r.1, r.2)
    | none =>
      let r := passCompare um cs
      (DiffEntry.added c.rect c.tag c.text :: r.1, r.2)

/-- The removed entry appended for a never-matched base element (rect from
the base element). -/
def removedEntry {ρ : Type} (b : Element ρ) : DiffEntry ρ :=
  DiffEntry.removed b.rect b.tag b.text

/-- compare_dom_elements of src/utils/dom_diff.py: run the compare pass
over the enumerated base list, then append a removed entry for every
remaining unmatched base element, in base order. -/
def compare_dom_elements {ρ : Type} (base comp : List (Element ρ)) :
    List (DiffEntry ρ) :=
  let r := passCompare (List.enumFrom 0 base) comp
  r.1 ++ r.2.map (fun p => removedEntry p.2)

/-- Working sets are kept in strictly increasing index order (the Python
dict preserves insertion order; keys are the original base indices). -/
def IdxSorted {ρ : Type} (um : List (Nat × Element ρ)) : Prop :=
  um.Pairwise (fun p q => p.1 < q.1)

/-! ## Helper lemmas about the matching pass -/

/-- On an index-sorted working set, find? returns an entry satisfying the
predicate whose index is least among all satisfying entries. -/
lemma find?_first_le {ρ : Type} (P : Nat × Element ρ → Bool)
    (um : List (Nat × Element ρ)) (hs : IdxSorted um) (i : Nat) (b : Element ρ)
    (h : um.find? P = some (i, b)) :
    (i, b) ∈ um ∧ P (i, b) = true ∧
      ∀ j c, (j, c) ∈ um → P (j, c) = true → i ≤ j := by
  induction um with
  | nil => exact Option.noConfusion h
  | cons hd tl ih =>
    have hs2 : IdxSorted tl := (List.pairwise_cons.mp hs).2
    have hlt : ∀ q ∈ tl, hd.1 < q.1 := (List.pairwise_cons.mp hs).1
    by_cases hP : P hd = true
    · rw [List.find?_cons_of_pos _ hP] at h
      have hhd : hd = (i, b) := by simpa using h
      subst hhd
      refine ⟨List.mem_cons_self _ _, hP, ?_⟩
      intro j c hmem _
      rcases List.mem_cons.mp hmem with hc | hc
      · have hj : j = i := congrArg Prod.fst hc
        omega
      · exact le_of_lt (hlt _ hc)
    · rw [List.find?_cons_of_neg _ (by simpa using hP)] at h
      obtain ⟨hmem, hPib, hleast⟩ := ih hs2 h
      refine ⟨List.mem_cons_of_mem _ hmem, hPib, ?_⟩
      intro j c hmemc hPc
      rcases List.mem_cons.mp hmemc with hc | hc
      · exact absurd (hc ▸ hPc) (by simpa using hP)
      · exact hleast j c hc hPc

/-- An entry returned by findMatch belongs to the working set. -/
lemma findMatch_mem {ρ : Type} {um : List (Nat × Element ρ)} {c : Element ρ}
    {ib : Nat × Element ρ} (h : findMatch um c = some ib) : ib ∈ um := by
  unfold findMatch at h
  by_cases hid : c.id = ""
  · simp only [hid, ne_eq, not_true_eq_false, if_false] at h
    exact List.mem_of_find?_eq_some h
  · cases hfind : um.find? (fun p => decide (p.2.id = c.id ∧ p.2.tag = c.tag)) with
    | some q =>
      simp only [hid, ne_eq, not_false_eq_true, if_true, hfind] at h
      exact (Option.some.inj h) ▸ List.mem_of_find?_eq_some hfind
    | none =>
      simp only [hid, ne_eq, not_false_eq_true, if_true, hfind] at h
      exact List.mem_of_find?_eq_some h

/-- The final working set of the compare pass is a sublist of the initial
one: the pass only ever removes matched elements. -/
lemma passCompare_sublist {ρ : Type} :
    ∀ (cs : List (Element ρ)) (um : List (Nat × Element ρ)),
      (passCompare um cs).2.Sublist um := by
  intro cs
  induction cs with
  | nil => intro um; simp [passCompare]
  | cons c cs ih =>
    intro um
    cases h : findMatch um c with
    | some ib =>
      obtain ⟨i, b⟩ := ib
      simpa [passCompare, h] using (ih _).trans (List.filter_sublist um)
    | none => simpa [passCompare, h] using ih um

/-- Enumerating a base list from any starting index yields a strictly
increasing index sequence. -/
lemma enumFrom_sorted {ρ : Type} :
    ∀ (l : List (Element ρ)) (n : Nat), IdxSorted (List.enumFrom n l) := by
  intro l
  induction l with
  | nil => intro n; simp [IdxSorted, List.enumFrom]
  | cons a l ih =>
    intro n
    rw [List.enumFrom]
    refine List.pairwise_cons.mpr ⟨?_, ih (n + 1)⟩
    rintro ⟨j, x⟩ hmem
    have := (List.mem_enumFrom hmem).1
    omega

/-- Filtering out an index smaller than the start leaves an enumFrom list
unchanged. -/
lemma filter_ne_enumFrom {ρ : Type} (l : List (Element ρ)) (n m : Nat)
    (hm : m < n) :
    (List.enumFrom n l).filter (fun q => decide (q.1 ≠ m)) =
      List.enumFrom n l := by
  refine List.filter_eq_self.mpr ?_
  rintro ⟨j, x⟩ hmem
  have := (List.mem_enumFrom hmem).1
  simp only [decide_eq_true_eq]
  omega

/-- Identical style dicts produce no style diffs. -/
lemma styleDiffs_self (s : Styles) : styleDiffs s s = [] := by
  simp [styleDiffs]

/-- An element matched with itself emits nothing. -/
lemma matchEntry_self {ρ : Type} (e : Element ρ) : matchEntry e e = none := by
  simp [matchEntry, styleDiffs_self]

/-- An element always finds itself at the head of the working set. -/
lemma findMatch_self {ρ : Type} (n : Nat) (c : Element ρ)
    (rest : List (Nat × Element ρ)) :
    findMatch ((n, c) :: rest) c = some (n, c) := by
  by_cases hc : c.id = ""
  · simp [findMatch, hc, List.find?_cons_of_pos]
  · simp [findMatch, hc, List.find?_cons_of_pos]

/-- Running the compare pass of a list against its own enumeration matches
every element with itself and emits nothing. -/
lemma passCompare_self {ρ : Type} :
    ∀ (L : List (Element ρ)) (n : Nat),
      passCompare (List.enumFrom n L) L = ([], []) := by
  intro L
  induction L with
  | nil => intro n; simp [passCompare, List.enumFrom]
  | cons c cs ih =>
    intro n
    rw [List.enumFrom]
    have hfm := findMatch_self n c (List.enumFrom (n + 1) cs)
    have hfilter :
        (List.enumFrom (n + 1) cs).filter (fun q => !decide (q.1 = n)) =
          List.enumFrom (n + 1) cs := by
      simpa using filter_ne_enumFrom cs (n + 1) n (Nat.lt_succ_self n)
    simp [passCompare, hfm, hfilter, matchEntry_self, ih (n + 1)]

/-- Popping a present index from an index-sorted working set removes
exactly one entry. -/
lemma filter_ne_length {ρ : Type} (um : List (Nat × Element ρ))
    (hs : IdxSorted um) (i : Nat) (b : Element ρ) (hmem : (i, b) ∈ um) :
    (um.filter (fun q => decide (q.1 ≠ i))).length + 1 = um.length := by
  obtain ⟨s, t, rfl⟩ := List.append_of_mem hmem
  obtain ⟨hs1, hs2, hcross⟩ := List.pairwise_append.mp hs
  have hts : ∀ q ∈ t, i < q.1 := (List.pairwise_cons.mp hs2).1
  have hss : ∀ q ∈ s, q.1 < i :=
    fun q hq => hcross q hq (i, b) (List.mem_cons_self _ _)
  have h1 : s.filter (fun q => !decide (q.1 = i)) = s :=
    List.filter_eq_self.mpr (fun q hq => by
      simpa using Nat.ne_of_lt (hss q hq))
  have h2 : t.filter (fun q => !decide (q.1 = i)) = t :=
    List.filter_eq_self.mpr (fun q hq => by
      simpa using Nat.ne_of_gt (hts q hq))
  have hall : (s ++ (i, b) :: t).filter (fun q => decide (q.1 ≠ i)) = s ++ t := by
    rw [List.filter_append, List.filter_cons]
    simp [h1, h2]
  rw [hall]
  simp [List.length_append]
  omega

/-- The entry emitted for a matched pair is never counted as added. -/
lemma matchEntry_countP_isAdded {ρ : Type} (b c : Element ρ) :
    (matchEntry b c).toList.countP DiffEntry.isAdded = 0 := by
  by_cases hsd : styleDiffs b.styles c.styles = [] <;>
    simp [matchEntry, hsd, List.countP_cons, DiffEntry.isAdded]

/-- The entry emitted for a matched pair is never a removed entry. -/
lemma matchEntry_not_removed {ρ : Type} (b c : Element ρ) (e : DiffEntry ρ)
    (h : e ∈ (matchEntry b c).toList) : e.isRemoved = false := by
  by_cases hsd : styleDiffs b.styles c.styles = []
  · simp [matchEntry, hsd] at h
  · simp [matchEntry, hsd] at h
    simp [h, DiffEntry.isRemoved]

/-- Counting invariant of the compare pass: the number of added entries
plus the number of matched (hence removed-from-working-set) base elements
equals the number of compare elements processed. -/
lemma passCompare_count {ρ : Type} :
    ∀ (cs : List (Element ρ)) (um : List (Nat × Element ρ)), IdxSorted um →
      (passCompare um cs).1.countP DiffEntry.isAdded
        + (um.length - (passCompare um cs).2.length) = cs.length := by
  intro cs
  induction cs with
  | nil => intro um hs; simp [passCompare]
  | cons c cs ih =>
    intro um hs
    cases h : findMatch um c with
    | some ib =>
      obtain ⟨i, b⟩ := ib
      have hmem : (i, b) ∈ um := findMatch_mem h
      have hs2 : IdxSorted (um.filter (fun q => decide (q.1 ≠ i))) :=
        List.Pairwise.sublist (List.filter_sublist um) hs
      have hlen : (um.filter (fun q => decide (q.1 ≠ i))).length + 1 = um.length :=
        filter_ne_length um hs i b hmem
      have hrest :=
        (passCompare_sublist cs (um.filter (fun q => decide (q.1 ≠ i)))).length_le
      have hih := ih (um.filter (fun q => decide (q.1 ≠ i))) hs2
      simp only [passCompare, h, List.countP_append, matchEntry_countP_isAdded,
        Nat.zero_add, List.length_cons]
      omega
    | none =>
      have hih := ih um hs
      simp only [passCompare, h, List.countP_cons, DiffEntry.isAdded, if_true]
      simp [DiffEntry.isAdded]
      omega

/-- The compare pass never emits a removed entry; removed entries only
arise from the final unmatched working set. -/
lemma passCompare_no_removed {ρ : Type} :
    ∀ (cs : List (Element ρ)) (um : List (Nat × Element ρ)) (e : DiffEntry ρ),
      e ∈ (passCompare um cs).1 → e.isRemoved = false := by
  intro cs
  induction cs with
  | nil => intro um e he; simp [passCompare] at he
  | cons c cs ih =>
    intro um e he
    cases h : findMatch um c with
    | some ib =>
      obtain ⟨i, b⟩ := ib
      simp only [passCompare, h] at he
      rcases List.mem_append.mp he with hm | hm
      · exact matchEntry_not_removed b c e hm
      · exact ih _ e hm
    | none =>
      simp only [passCompare, h, List.mem_cons] at he
      rcases he with he | he
      · simp [he, DiffEntry.isRemoved]
      · exact ih um e he

/-- Characterisation of a successful findMatch on an index-sorted working
set: either the compare element has a non-empty id and the match is the
least-index remaining base element with the same id and tag, or no such
id match exists (or the id is empty) and the match is the least-index
remaining base element with the same tag and identical text. -/
lemma findMatch_some_spec {ρ : Type} (um : List (Nat × Element ρ))
    (c : Element ρ) (i : Nat) (b : Element ρ) (hs : IdxSorted um)
    (h : findMatch um c = some (i, b)) :
    (i, b) ∈ um ∧
      ((c.id ≠ "" ∧ b.id = c.id ∧ b.tag = c.tag ∧
          ∀ j b2, (j, b2) ∈ um → b2.id = c.id → b2.tag = c.tag → i ≤ j) ∨
       ((c.id = "" ∨ ∀ p ∈ um, ¬(p.2.id = c.id ∧ p.2.tag = c.tag)) ∧
          b.tag = c.tag ∧ b.text = c.text ∧
          ∀ j b2, (j, b2) ∈ um → b2.tag = c.tag → b2.text = c.text → i ≤ j)) := by
  unfold findMatch at h
  by_cases hid : c.id = ""
  · rw [if_neg (by simp [hid])] at h
    have h2 : um.find? (fun p => decide (p.2.tag = c.tag ∧ p.2.text = c.text))
        = some (i, b) := h
    obtain ⟨hmem, hP, hleast⟩ := find?_first_le _ um hs i b h2
    simp only [decide_eq_true_eq] at hP
    refine ⟨hmem, Or.inr ⟨Or.inl hid, hP.1, hP.2, ?_⟩⟩
    intro j b2 hm2 ht2 hx2
    exact hleast j b2 hm2 (by simp only [decide_eq_true_eq]; exact ⟨ht2, hx2⟩)
  · rw [if_pos hid] at h
    cases hfind : um.find? (fun p => decide (p.2.id = c.id ∧ p.2.tag = c.tag)) with
    | some q =>
      rw [hfind] at h
      have hq : some q = some (i, b) := h
      have hq2 : q = (i, b) := Option.some.inj hq
      subst hq2
      obtain ⟨hmem, hP, hleast⟩ := find?_first_le _ um hs i b hfind
      simp only [decide_eq_true_eq] at hP
      refine ⟨hmem, Or.inl ⟨hid, hP.1, hP.2, ?_⟩⟩
      intro j b2 hm2 hid2 ht2
      exact hleast j b2 hm2 (by simp only [decide_eq_true_eq]; exact ⟨hid2, ht2⟩)
    | none =>
      rw [hfind] at h
      have h2 : um.find? (fun p => decide (p.2.tag = c.tag ∧ p.2.text = c.text))
          = some (i, b) := h
      have hnone := List.find?_eq_none.mp hfind
      obtain ⟨hmem, hP, hleast⟩ := find?_first_le _ um hs i b h2
      simp only [decide_eq_true_eq] at hP
      refine ⟨hmem, Or.inr ⟨Or.inr ?_, hP.1, hP.2, ?_⟩⟩
      · intro p hp
        simpa using hnone p hp
      · intro j b2 hm2 ht2 hx2
        exact hleast j b2 hm2 (by simp only [decide_eq_true_eq]; exact ⟨ht2, hx2⟩)

/-- Characterisation of a failed findMatch: no remaining base element has
the same tag and text, and if the compare element has a non-empty id, no
remaining base element has the same id and tag either. -/
lemma findMatch_none_spec {ρ : Type} (um : List (Nat × Element ρ))
    (c : Element ρ) (h : findMatch um c = none) :
    (∀ p ∈ um, ¬(p.2.tag = c.tag ∧ p.2.text = c.text)) ∧
      (c.id ≠ "" → ∀ p ∈ um, ¬(p.2.id = c.id ∧ p.2.tag = c.tag)) := by
  unfold findMatch at h
  by_cases hid : c.id = ""
  · rw [if_neg (by simp [hid])] at h
    have h2 : um.find? (fun p => decide (p.2.tag = c.tag ∧ p.2.text = c.text))
        = none := h
    have hnone := List.find?_eq_none.mp h2
    exact ⟨fun p hp => by simpa using hnone p hp, fun hne => absurd hid hne⟩
  · rw [if_pos hid] at h
    cases hfind : um.find? (fun p => decide (p.2.id = c.id ∧ p.2.tag = c.tag)) with
    | some q =>
      rw [hfind] at h
      exact Option.noConfusion h
    | none =>
      rw [hfind] at h
      have h2 : um.find? (fun p => decide (p.2.tag = c.tag ∧ p.2.text = c.text))
          = none := h
      have hnone1 := List.find?_eq_none.mp hfind
      have hnone2 := List.find?_eq_none.mp h2
      exact ⟨fun p hp => by simpa using hnone2 p hp,
        fun _ p hp => by simpa using hnone1 p hp⟩

/-- The style diff dict is empty exactly when the two elements agree on
all six target properties. -/
lemma styleDiffs_eq_nil_iff (bs cs : Styles) :
    styleDiffs bs cs = [] ↔ ∀ p ∈ targetStyles, bs.get p = cs.get p := by
  simp [styleDiffs, List.filterMap_eq_nil_iff]

/-- A matched pair emits nothing exactly when the two elements agree on
all six target properties. -/
lemma matchEntry_eq_none_iff {ρ : Type} (b c : Element ρ) :
    matchEntry b c = none ↔
      ∀ p ∈ targetStyles, b.styles.get p = c.styles.get p := by
  rw [← styleDiffs_eq_nil_iff]
  by_cases hsd : styleDiffs b.styles c.styles = [] <;> simp [matchEntry, hsd]

/-- A matched pair differing only in color emits exactly one style_change
entry whose diffs hold only the color key, with the rect, tag and text of
the compare element. -/
lemma matchEntry_only_color {ρ : Type} (b c : Element ρ)
    (hcol : b.styles.get StyleProp.color ≠ c.styles.get StyleProp.color)
    (hrest : ∀ p ∈ targetStyles, p ≠ StyleProp.color →
      b.styles.get p = c.styles.get p) :
    matchEntry b c = some (DiffEntry.style_change c.rect
      [⟨StyleProp.color, b.styles.get StyleProp.color,
        c.styles.get StyleProp.color⟩] c.tag c.text) := by
  have hbg := hrest StyleProp.backgroundColor (by decide) (by decide)
  have hff := hrest StyleProp.fontFamily (by decide) (by decide)
  have hfs := hrest StyleProp.fontSize (by decide) (by decide)
  have hfw := hrest StyleProp.fontWeight (by decide) (by decide)
  have hta := hrest StyleProp.textAlign (by decide) (by decide)
  have hsd : styleDiffs b.styles c.styles =
      [⟨StyleProp.color, b.styles.get StyleProp.color,
        c.styles.get StyleProp.color⟩] := by
    simp [styleDiffs, targetStyles, hcol, hbg, hff, hfs, hfw, hta]
  simp [matchEntry, hsd]

/-! ## Concrete elements used by witnesses and counterexamples -/

def stylesA : Styles :=
  ⟨some "red", some "white", some "Arial", some "16px", some "400", some "left"⟩

def stylesB : Styles :=
  ⟨some "blue", some "white", some "Arial", some "16px", some "400", some "left"⟩

def elRed : Element Int := ⟨"P", "", "hi", 0, stylesA⟩

def elBlue : Element Int := ⟨"P", "", "hi", 0, stylesB⟩

def elId : Element Int := ⟨"DIV", "x", "t", 0, stylesA⟩

/-! ## Claim theorems for the DOM differ -/

/-- C1: processing a compare element against the working set of unmatched
base elements, a non-empty id is matched to the least-index (first in base
order) remaining base element with the same id and tag; when that search
fails or the id is empty, it is matched to the least-index remaining base
element with the same tag and exactly equal text; failure means no such
element remains; the working set only ever shrinks (a matched base element
is removed and never matches again); working sets are index-sorted
throughout, starting from the enumeration of base; a match step pops
exactly the matched index before processing the rest. -/
theorem C1_greedy_matching (ρ : Type) :
    (∀ (um : List (Nat × Element ρ)) (c : Element ρ) (i : Nat) (b : Element ρ),
      IdxSorted um → findMatch um c = some (i, b) →
      (i, b) ∈ um ∧
        ((c.id ≠ "" ∧ b.id = c.id ∧ b.tag = c.tag ∧
            ∀ j b2, (j, b2) ∈ um → b2.id = c.id → b2.tag = c.tag → i ≤ j) ∨
         ((c.id = "" ∨ ∀ p ∈ um, ¬(p.2.id = c.id ∧ p.2.tag = c.tag)) ∧
            b.tag = c.tag ∧ b.text = c.text ∧
            ∀ j b2, (j, b2) ∈ um → b2.tag = c.tag → b2.text = c.text → i ≤ j))) ∧
    (∀ (um : List (Nat × Element ρ)) (c : Element ρ),
      findMatch um c = none →
      (∀ p ∈ um, ¬(p.2.tag = c.tag ∧ p.2.text = c.text)) ∧
        (c.id ≠ "" → ∀ p ∈ um, ¬(p.2.id = c.id ∧ p.2.tag = c.tag))) ∧
    (∀ (um : List (Nat × Element ρ)) (cs : List (Element ρ)),
      (passCompare um cs).2.Sublist um) ∧
    (∀ (base : List (Element ρ)) (n : Nat), IdxSorted (List.enumFrom n base)) ∧
    (∀ (um : List (Nat × Element ρ)) (c : Element ρ) (cs : List (Element ρ))
      (i : Nat) (b : Element ρ), findMatch um c = some (i, b) →
      passCompare um (c :: cs) =
        ((matchEntry b c).toList ++
            (passCompare (um.filter (fun q => decide (q.1 ≠ i))) cs).1,
          (passCompare (um.filter (fun q => decide (q.1 ≠ i))) cs).2)) := by
  refine ⟨?_, ?_, ?_, ?_, ?_⟩
  · intro um c i b hs h
    exact findMatch_some_spec um c i b hs h
  · intro um c h
    exact findMatch_none_spec um c h
  · intro um cs
    exact passCompare_sublist cs um
  · intro base n
    exact enumFrom_sorted base n
  · intro um c cs i b h
    simp [passCompare, h]

/-- Witness for C1: the greedy matcher applied to a concrete singleton
working set containing an element with a non-empty id. -/
theorem C1_greedy_matching_witness : ((0 : Nat), elId) ∈ [((0 : Nat), elId)] :=
  ((C1_greedy_matching Int).1 [(0, elId)] elId 0 elId
    (by simp [IdxSorted]) (by decide)).1

/-- C7 counterexample: two snapshot lists that are equal as multisets
(same elements, swapped order) on which compare_dom_elements returns a
non-empty diff list, refuting the claim as stated. -/
theorem C7_counterexample :
    Multiset.ofList [elBlue, elRed] = Multiset.ofList [elRed, elBlue] ∧
      compare_dom_elements [elRed, elBlue] [elBlue, elRed] ≠ [] := by
  constructor
  · exact Multiset.coe_eq_coe.mpr (List.Perm.swap elRed elBlue [])
  · decide

/-- C7 (amended): diffing a snapshot list against itself, in the same
order, yields the empty diff list. -/
theorem C7_self_diff_empty {ρ : Type} (L : List (Element ρ)) :
    compare_dom_elements L L = [] := by
  simp [compare_dom_elements, passCompare_self L 0]

/-- C8: a matched pair emits a style_change entry only if at least one of
the six fixed style properties differs (identical pairs emit nothing),
and a pair differing only in color emits exactly one style_change entry
whose diffs contain only the color key with the old and new
values, rect taken from the compare element. -/
theorem C8_style_change_entry (ρ : Type) :
    (∀ b c : Element ρ, matchEntry b c = none ↔
       ∀ p ∈ targetStyles, b.styles.get p = c.styles.get p) ∧
    (∀ e : Element ρ, matchEntry e e = none) ∧
    (∀ b c : Element ρ,
       b.styles.get StyleProp.color ≠ c.styles.get StyleProp.color →
       (∀ p ∈ targetStyles, p ≠ StyleProp.color →
         b.styles.get p = c.styles.get p) →
       matchEntry b c = some (DiffEntry.style_change c.rect
         [⟨StyleProp.color, b.styles.get StyleProp.color,
           c.styles.get StyleProp.color⟩] c.tag c.text)) :=
  ⟨fun b c => matchEntry_eq_none_iff b c, fun e => matchEntry_self e,
   fun b c hcol hrest => matchEntry_only_color b c hcol hrest⟩

/-- Witness for C8: two concrete elements differing only in color produce
the single color style_change entry. -/
theorem C8_style_change_entry_witness :
    matchEntry elRed elBlue = some (DiffEntry.style_change (0 : Int)
      [⟨StyleProp.color, some "red", some "blue"⟩] "P" "hi") :=
  (C8_style_change_entry Int).2.2 elRed elBlue (by decide)
    (fun p _ hp => by cases p <;> first | rfl | exact absurd rfl hp)

/-- C9: the diff list is the compare-pass entries followed by one removed
entry per never-matched base element (a sublist of the enumerated base, so
each base element contributes at most once and matched elements never
reappear); the compare pass emits no removed entries; the number of added
entries equals the number of compare elements minus the number of matched
base elements; a matched index never occurs in the final working set; an
unmatched compare element contributes exactly one added entry. -/
theorem C9_structure (ρ : Type) :
    (∀ base comp : List (Element ρ),
       compare_dom_elements base comp =
         (passCompare (List.enumFrom 0 base) comp).1 ++
           (passCompare (List.enumFrom 0 base) comp).2.map
             (fun p => removedEntry p.2)) ∧
    (∀ base comp : List (Element ρ),
       (passCompare (List.enumFrom 0 base) comp).2.Sublist
         (List.enumFrom 0 base)) ∧
    (∀ (um : List (Nat × Element ρ)) (cs : List (Element ρ)) (e : DiffEntry ρ),
       e ∈ (passCompare um cs).1 → e.isRemoved = false) ∧
    (∀ base comp : List (Element ρ),
       (passCompare (List.enumFrom 0 base) comp).1.countP DiffEntry.isAdded
         + (base.length - (passCompare (List.enumFrom 0 base) comp).2.length)
         = comp.length) ∧
    (∀ (um : List (Nat × Element ρ)) (c : Element ρ) (cs : List (Element ρ))
       (i : Nat) (b : Element ρ), findMatch um c = some (i, b) →
       ∀ p ∈ (passCompare (um.filter (fun q => decide (q.1 ≠ i))) cs).2,
         p.1 ≠ i) ∧
    (∀ (um : List (Nat × Element ρ)) (c : Element ρ) (cs : List (Element ρ)),
       findMatch um c = none →
       (passCompare um (c :: cs)).1
           = DiffEntry.added c.rect c.tag c.text :: (passCompare um cs).1 ∧
         (passCompare um (c :: cs)).2 = (passCompare um cs).2) := by
  refine ⟨?_, ?_, ?_, ?_, ?_, ?_⟩
  · intro base comp
    rfl
  · intro base comp
    exact passCompare_sublist comp _
  · intro um cs e h
    exact passCompare_no_removed cs um e h
  · intro base comp
    have h := passCompare_count comp (List.enumFrom 0 base) (enumFrom_sorted base 0)
    simpa [List.enumFrom_length] using h
  · intro um c cs i b _ p hp
    have hsub := passCompare_sublist cs (um.filter (fun q => decide (q.1 ≠ i)))
    have := List.of_mem_filter (hsub.subset hp)
    simpa using this
  · intro um c cs h
    constructor <;> simp [passCompare, h]

/-- Witness for C9: a concrete unmatched compare element appears as an
added entry, which is not a removed entry. -/
theorem C9_structure_witness : (DiffEntry.added (0 : Int) "P" "hi").isRemoved = false :=
  (C9_structure Int).2.2.1 [] [elRed] (DiffEntry.added 0 "P" "hi") (by decide)

/-! ## Pixel differ (src/main.py, process_image_diff, lines 3094-3130)

Pixels are RGB triples of channel values (Python ints).  PIL resize is
external library code, so it is an uninterpreted function parameter; the
code calls it on both images with the same target dimensions.  Python
int(x) on the nonnegative values produced here is the floor. -/

abbrev RGB : Type := Nat × Nat × Nat

/-- A decoded RGB raster: dimensions plus a pixel access function. -/
structure Img where
  width : Nat
  height : Nat
  pix : Nat → Nat → RGB

/-- abs(r1 - r2) + abs(g1 - g2) + abs(b1 - b2), the Manhattan channel
distance of the per-pixel loop. -/
def pixDist (p q : RGB) : Nat :=
  ((p.1 : Int) - q.1).natAbs + ((p.2.1 : Int) - q.2.1).natAbs
    + ((p.2.2 : Int) - q.2.2).natAbs

/-- The hard-coded divergence threshold of the per-pixel comparison. -/
def pdThreshold : Nat := 15

/-- int(c * 0.3) on a channel value: the faded output pixel for a
non-divergent coordinate.  For nonnegative integers the Python float
expression equals the exact floor of 3c/10. -/
def dimPix (p : RGB) : RGB :=
  (p.1 * 3 / 10, p.2.1 * 3 / 10, p.2.2 * 3 / 10)

/-- The output pixel of the diff image at one coordinate. -/
def diffPix (p q : RGB) : RGB :=
  if pdThreshold < pixDist p q then (255, 0, 0) else dimPix p

/-- The coordinates visited by the nested pixel loops (y outer, x inner). -/
def coords (w h : Nat) : List (Nat × Nat) :=
  (List.range h).flatMap (fun y => (List.range w).map (fun x => (x, y)))

/-- Whether a coordinate increments the divergence counter. -/
def divergentB (a b : Img) (xy : Nat × Nat) : Bool :=
  decide (pdThreshold < pixDist (a.pix xy.1 xy.2) (b.pix xy.1 xy.2))

/-- The resize target of process_image_diff: the component-wise minimum of
the two image sizes. -/
def targetDims (i1 i2 : Img) : Nat × Nat :=
  (min i1.width i2.width, min i1.height i2.height)

structure PixelDiffResult where
  diffImage : Img
  diff_score : Nat

/-! ### IEEE binary64 model for the score expression

The source computes the score as int((diff_count / total_pixels) * 100)
in Python, i.e. with one correctly rounded double division and one
correctly rounded double multiplication (the int operands convert to
doubles exactly at these magnitudes), then truncation toward zero.  The
rounding is modelled exactly over the rationals: round to nearest with a
53-bit significand, ties to even.  The exponent is unbounded here, which
agrees with binary64 away from overflow and subnormals; the values
reachable in this program (counts up to total_pixels, quotients in [0,1],
then times 100) are far inside that range. -/

/-- Bit length of a natural number, driven by a fuel argument that only
bounds the recursion depth; bitLen n n is exact. -/
def bitLen : Nat → Nat → Nat
  | 0, _ => 0
  | f + 1, n => if n = 0 then 0 else bitLen f (n / 2) + 1

/-- Floor of the base-2 logarithm of a positive rational, located via the
bit lengths of numerator and denominator. -/
def ilog2 (x : ℚ) : ℤ :=
  let a := x.num.toNat
  let b := x.den
  let e0 : ℤ := (bitLen a a : ℤ) - (bitLen b b : ℤ)
  if (2 : ℚ) ^ e0 ≤ x then e0 else e0 - 1

/-- Round a rational to the nearest integer, ties to even. -/
def rne (q : ℚ) : ℤ :=
  let f := ⌊q⌋
  if 2 * (q - f) < 1 then f
  else if 1 < 2 * (q - f) then f + 1
  else if f % 2 = 0 then f else f + 1

/-- Round a nonnegative rational to the nearest IEEE binary64 value
(53-bit significand, round to nearest, ties to even, exponent unbounded),
returned as an exact rational.  Nonpositive input maps to zero. -/
def fl (x : ℚ) : ℚ :=
  if x ≤ 0 then 0
  else (rne (x * (2 : ℚ) ^ ((52 : ℤ) - ilog2 x)) : ℚ) * (2 : ℚ) ^ (ilog2 x - 52)

/-- int((c / t) * 100) as CPython evaluates it: correctly rounded double
division, exact conversion of 100, correctly rounded double
multiplication, truncation toward zero (the floor, as the value is
nonnegative).  Python raises ZeroDivisionError for t = 0, which is
unreachable here because decoded PIL images have positive dimensions. -/
def pyFloatScore (c t : Nat) : Nat :=
  (⌊fl (fl ((c : ℚ) / (t : ℚ)) * 100)⌋).toNat

/-- The pixel-diff computation of process_image_diff: resize both images
to the minimum shared dimensions, build the diff image pixel by pixel,
count divergent pixels, and score int((count / total) * 100) evaluated in
binary64 doubles. -/
def process_image_diff (resize : Img → Nat → Nat → Img) (img1 img2 : Img) :
    PixelDiffResult :=
  let w := (targetDims img1 img2).1
  let h := (targetDims img1 img2).2
  let a := resize img1 w h
  let b := resize img2 w h
  let dc := (coords w h).countP (divergentB a b)
  { diffImage := ⟨w, h, fun x y => diffPix (a.pix x y) (b.pix x y)⟩,
    diff_score := pyFloatScore dc (w * h) }

/-! ### Pixel lemmas -/

lemma int_natAbs_sub_comm (a b : Int) : (a - b).natAbs = (b - a).natAbs := by
  rw [← Int.natAbs_neg, neg_sub]

lemma pixDist_comm (p q : RGB) : pixDist p q = pixDist q p := by
  unfold pixDist
  rw [int_natAbs_sub_comm ((p.1 : Int)) ((q.1 : Int)),
    int_natAbs_sub_comm ((p.2.1 : Int)) ((q.2.1 : Int)),
    int_natAbs_sub_comm ((p.2.2 : Int)) ((q.2.2 : Int))]

/-- Counting over an initial range as a finite sum of indicators. -/
lemma countP_range (w : Nat) (q : Nat → Bool) :
    (List.range w).countP q = ∑ x ∈ Finset.range w, if q x then 1 else 0 := by
  induction w with
  | zero => simp
  | succ w ih =>
    rw [List.range_succ, List.countP_append, Finset.sum_range_succ, ih]
    simp [List.countP_cons]

/-- Counting over the visited coordinates as a double sum of indicators. -/
lemma countP_coords (w h : Nat) (p : Nat × Nat → Bool) :
    (coords w h).countP p =
      ∑ y ∈ Finset.range h, ∑ x ∈ Finset.range w, if p (x, y) then 1 else 0 := by
  induction h with
  | zero => simp [coords]
  | succ h ih =>
    have hsplit : coords w (h + 1) =
        coords w h ++ (List.range w).map (fun x => (x, h)) := by
      simp [coords, List.range_succ]
    rw [hsplit, List.countP_append, Finset.sum_range_succ, ih,
      List.countP_map, countP_range]
    rfl

/-- The coordinate list has exactly total_pixels entries. -/
lemma coords_length (w h : Nat) : (coords w h).length = h * w := by
  induction h with
  | zero => simp [coords]
  | succ h ih =>
    have hsplit : coords w (h + 1) =
        coords w h ++ (List.range w).map (fun x => (x, h)) := by
      simp [coords, List.range_succ]
    rw [hsplit, List.length_append, ih, List.length_map, List.length_range]
    ring

/-- Exact floor arithmetic for the 0.3 channel scaling. -/
lemma floor_three_tenths (n : Nat) :
    Nat.floor ((n : ℚ) * 3 / 10) = n * 3 / 10 := by
  have h : (n : ℚ) * 3 / 10 = ((n * 3 : ℕ) : ℚ) / ((10 : ℕ) : ℚ) := by
    push_cast
    ring
  rw [h, Nat.floor_div_nat, Nat.floor_natCast]

/-- Exact floor arithmetic for the percentage score. -/
lemma floor_score (c t : Nat) :
    Nat.floor ((c : ℚ) / (t : ℚ) * 100) = c * 100 / t := by
  have h : (c : ℚ) / (t : ℚ) * 100 = ((c * 100 : ℕ) : ℚ) / ((t : ℕ) : ℚ) := by
    push_cast
    ring
  rw [h, Nat.floor_div_nat, Nat.floor_natCast]

/-! ### Correctness of the binary64 rounding model -/

lemma bitLen_zero (f : Nat) : bitLen f 0 = 0 := by
  cases f <;> simp [bitLen]

/-- With fuel at least n, bitLen brackets n between consecutive powers of
two. -/
lemma bitLen_spec : ∀ (f n : Nat), 0 < n → n ≤ f →
    n < 2 ^ bitLen f n ∧ 2 ^ bitLen f n ≤ 2 * n := by
  intro f
  induction f with
  | zero => intro n h1 h2; omega
  | succ f ih =>
    intro n h1 h2
    rw [bitLen, if_neg (Nat.pos_iff_ne_zero.mp h1)]
    by_cases hn : n = 1
    · subst hn
      simp [bitLen_zero]
    · have h2n : 2 ≤ n := by omega
      have hhalf : 0 < n / 2 := Nat.div_pos h2n (by norm_num)
      have hfuel : n / 2 ≤ f := by omega
      obtain ⟨hlt, hle⟩ := ih (n / 2) hhalf hfuel
      have hps : 2 ^ (bitLen f (n / 2) + 1) = 2 * 2 ^ bitLen f (n / 2) := by
        ring
      constructor
      · omega
      · omega

/-- ilog2 locates the binade of a positive rational. -/
lemma ilog2_spec (x : ℚ) (hx : 0 < x) :
    (2 : ℚ) ^ ilog2 x ≤ x ∧ x < (2 : ℚ) ^ (ilog2 x + 1) := by
  have hnum : 0 < x.num := Rat.num_pos.mpr hx
  have hden : 0 < x.den := Rat.den_pos x
  set a : Nat := x.num.toNat with hadef
  have ha0 : 0 < a := by omega
  have hxeq : ((a : ℚ)) / ((x.den : ℚ)) = x := by
    have h1 : ((a : ℚ)) = ((x.num : ℚ)) := by
      have h2 := Int.toNat_of_nonneg hnum.le
      exact_mod_cast congrArg (fun z : ℤ => (z : ℚ)) h2
    rw [h1, Rat.num_div_den]
  obtain ⟨haU, haL⟩ := bitLen_spec a a ha0 le_rfl
  obtain ⟨hbU, hbL⟩ := bitLen_spec x.den x.den hden le_rfl
  set la := bitLen a a with hla
  set lb := bitLen x.den x.den with hlb
  set E : ℤ := (la : ℤ) - (lb : ℤ) with hE
  have haUq : (a : ℚ) < 2 ^ la := by exact_mod_cast haU
  have haLq : (2 : ℚ) ^ la ≤ 2 * a := by exact_mod_cast haL
  have hbUq : ((x.den : ℚ)) < 2 ^ lb := by exact_mod_cast hbU
  have hbLq : (2 : ℚ) ^ lb ≤ 2 * x.den := by exact_mod_cast hbL
  have hbq0 : (0 : ℚ) < (x.den : ℚ) := by exact_mod_cast hden
  have haq0 : (0 : ℚ) ≤ (a : ℚ) := by positivity
  have hpa : (0 : ℚ) < 2 ^ la := by positivity
  have hpb : (0 : ℚ) < 2 ^ lb := by positivity
  have hzE : ∀ k : ℤ, (2 : ℚ) ^ ((la : ℤ) + k) / (2 : ℚ) ^ (lb : ℤ)
      = (2 : ℚ) ^ (E + k) := by
    intro k
    rw [← zpow_sub₀ (two_ne_zero), hE]
    ring_nf
  have hcastA : (2 : ℚ) ^ ((la : ℤ)) = 2 ^ la := zpow_natCast 2 la
  have hcastB : (2 : ℚ) ^ ((lb : ℤ)) = 2 ^ lb := zpow_natCast 2 lb
  have hupper : x < (2 : ℚ) ^ (E + 1) := by
    have hkey : (a : ℚ) * 2 ^ lb < 2 * 2 ^ la * (x.den : ℚ) := by
      nlinarith [mul_lt_mul_of_pos_right haUq hpb,
        mul_le_mul_of_nonneg_left hbLq (le_of_lt hpa)]
    have h1 : (2 : ℚ) ^ (E + 1) = 2 ^ la * 2 / 2 ^ lb := by
      rw [← hzE 1, zpow_add₀ (two_ne_zero), hcastA, hcastB, zpow_one]
    rw [h1, ← hxeq, div_lt_div_iff hbq0 hpb]
    nlinarith [hkey]
  have hlower : (2 : ℚ) ^ (E - 1) ≤ x := by
    have hkey : (2 : ℚ) ^ la * (x.den : ℚ) ≤ (a : ℚ) * (2 ^ lb * 2) := by
      nlinarith [mul_le_mul_of_nonneg_right haLq (le_of_lt hbq0),
        mul_le_mul_of_nonneg_left (le_of_lt hbUq) (by positivity : (0:ℚ) ≤ 2 * a)]
    have h1 : (2 : ℚ) ^ (E - 1) = 2 ^ la / (2 ^ lb * 2) := by
      rw [show E - 1 = (la : ℤ) + (-(1 : ℤ)) - (lb : ℤ) from by rw [hE]; ring,
        zpow_sub₀ (two_ne_zero), zpow_add₀ (two_ne_zero), hcastA, hcastB]
      rw [zpow_neg, zpow_one]
      ring
    rw [h1, ← hxeq, div_le_div_iff (by positivity) hbq0]
    nlinarith [hkey]
  have hilog : ilog2 x = if (2 : ℚ) ^ E ≤ x then E else E - 1 := by
    simp only [ilog2]
  rcases le_or_lt ((2 : ℚ) ^ E) x with hif | hif
  · rw [hilog, if_pos hif]
    exact ⟨hif, hupper⟩
  · rw [hilog, if_neg (not_le.mpr hif)]
    refine ⟨hlower, ?_⟩
    rw [show E - 1 + 1 = E from by ring]
    exact hif

/-- Round-to-nearest never moves a value by more than half. -/
lemma rne_bounds (q : ℚ) :
    q - 1 / 2 ≤ (rne q : ℚ) ∧ (rne q : ℚ) ≤ q + 1 / 2 := by
  have h1 := Int.floor_le q
  have h2 := Int.lt_floor_add_one q
  simp only [rne]
  split_ifs with ha hb hc <;> constructor <;> push_cast <;> linarith

/-- Relative error of one binary64 rounding: at most one part in 2^53. -/
lemma fl_bounds (x : ℚ) (hx : 0 ≤ x) :
    x - x / 2 ^ 53 ≤ fl x ∧ fl x ≤ x + x / 2 ^ 53 := by
  rcases eq_or_lt_of_le hx with h0 | hpos
  · rw [fl, if_pos (le_of_eq h0.symm), ← h0]
    norm_num
  · rw [fl, if_neg (not_le.mpr hpos)]
    obtain ⟨hel, _⟩ := ilog2_spec x hpos
    set e := ilog2 x with he
    set s := x * (2 : ℚ) ^ ((52 : ℤ) - e) with hs
    obtain ⟨hr1, hr2⟩ := rne_bounds s
    have hpow : (0 : ℚ) < (2 : ℚ) ^ (e - 52) := zpow_pos (by norm_num) _
    have hcan : (2 : ℚ) ^ ((52 : ℤ) - e) * (2 : ℚ) ^ (e - 52) = 1 := by
      rw [← zpow_add₀ (two_ne_zero)]
      norm_num
    have hxs : s * (2 : ℚ) ^ (e - 52) = x := by
      rw [hs, mul_assoc, hcan, mul_one]
    have hhalf : (1 / 2 : ℚ) * (2 : ℚ) ^ (e - 52) ≤ x / 2 ^ 53 := by
      have h1 : (1 / 2 : ℚ) * (2 : ℚ) ^ (e - 52) = (2 : ℚ) ^ (e - 53) := by
        rw [show e - 53 = (-(1 : ℤ)) + (e - 52) from by ring,
          zpow_add₀ (two_ne_zero), zpow_neg, zpow_one]
        ring
      have h2 : (2 : ℚ) ^ (e - 53) = (2 : ℚ) ^ e * ((2 : ℚ) ^ ((53 : ℤ)))⁻¹ := by
        rw [← zpow_neg, ← zpow_add₀ (two_ne_zero)]
        ring_nf
      have h3 : ((2 : ℚ) ^ ((53 : ℤ)))⁻¹ = 1 / 2 ^ 53 := by
        rw [show ((53 : ℤ)) = (((53 : ℕ)) : ℤ) from rfl, zpow_natCast]
        ring
      calc (1 / 2 : ℚ) * (2 : ℚ) ^ (e - 52)
          = (2 : ℚ) ^ e * (1 / 2 ^ 53) := by rw [h1, h2, h3]
        _ ≤ x * (1 / 2 ^ 53) := by
            apply mul_le_mul_of_nonneg_right hel
            positivity
        _ = x / 2 ^ 53 := by ring
    constructor
    · have hm : (s - 1 / 2) * (2 : ℚ) ^ (e - 52) ≤ (rne s : ℚ) * (2 : ℚ) ^ (e - 52) :=
        mul_le_mul_of_nonneg_right hr1 (le_of_lt hpow)
      have hexp : (s - 1 / 2) * (2 : ℚ) ^ (e - 52)
          = x - (1 / 2) * (2 : ℚ) ^ (e - 52) := by
        rw [sub_mul, hxs]
      linarith
    · have hm : (rne s : ℚ) * (2 : ℚ) ^ (e - 52) ≤ (s + 1 / 2) * (2 : ℚ) ^ (e - 52) :=
        mul_le_mul_of_nonneg_right hr2 (le_of_lt hpow)
      have hexp : (s + 1 / 2) * (2 : ℚ) ^ (e - 52)
          = x + (1 / 2) * (2 : ℚ) ^ (e - 52) := by
        rw [add_mul, hxs]
      linarith

lemma fl_nonneg (x : ℚ) : 0 ≤ fl x := by
  rcases le_or_lt x 0 with h | h
  · rw [fl, if_pos h]
  · have hb := (fl_bounds x h.le).1
    have hx53 : x / 2 ^ 53 ≤ x := by
      apply div_le_self h.le
      norm_num
    linarith

/-- The binade bracket determines ilog2 uniquely. -/
lemma ilog2_eq_of (x : ℚ) (e : ℤ) (h1 : (2 : ℚ) ^ e ≤ x)
    (h2 : x < (2 : ℚ) ^ (e + 1)) : ilog2 x = e := by
  have hx : 0 < x := lt_of_lt_of_le (zpow_pos (by norm_num) e) h1
  obtain ⟨hl, hu⟩ := ilog2_spec x hx
  by_contra hne
  rcases lt_or_gt_of_ne hne with hlt | hgt
  · have hle : ilog2 x + 1 ≤ e := by omega
    have := zpow_le_zpow_right₀ (by norm_num : (1 : ℚ) ≤ 2) hle
    linarith
  · have hle : e + 1 ≤ ilog2 x := by omega
    have := zpow_le_zpow_right₀ (by norm_num : (1 : ℚ) ≤ 2) hle
    linarith

lemma rne_eq_low (q : ℚ) (n : ℤ) (hf : ⌊q⌋ = n)
    (h : 2 * (q - (n : ℚ)) < 1) : rne q = n := by
  simp only [rne, hf]
  rw [if_pos h]

lemma rne_eq_high (q : ℚ) (n : ℤ) (hf : ⌊q⌋ = n)
    (h : 1 < 2 * (q - (n : ℚ))) : rne q = n + 1 := by
  simp only [rne, hf]
  rw [if_neg (by linarith), if_pos h]

lemma fl_eq_pos (x : ℚ) (hx : ¬x ≤ 0) (e : ℤ) (he : ilog2 x = e) :
    fl x = ((rne (x * (2 : ℚ) ^ ((52 : ℤ) - e)) : ℤ) : ℚ) * (2 : ℚ) ^ (e - 52) := by
  rw [fl, if_neg hx, he]

lemma floor_eq_of (q : ℚ) (n : ℤ) (h1 : (n : ℚ) ≤ q) (h2 : q < (n : ℚ) + 1) :
    ⌊q⌋ = n := Int.floor_eq_iff.mpr ⟨h1, h2⟩

/-- The binary64 evaluation of (29 / 100) * 100 truncates to 28: the
quotient rounds to 5224175567749775 / 2^54, strictly below 29/100, and
the product then rounds to 8162774324609023 / 2^48, strictly below 29. -/
lemma pyFloatScore_29_100 : pyFloatScore 29 100 = 28 := by
  have hq : ((29 : ℕ) : ℚ) / ((100 : ℕ) : ℚ) = 29 / 100 := by norm_num
  have hilog1 : ilog2 ((29 : ℚ) / 100) = -2 :=
    ilog2_eq_of _ _ (by norm_num) (by norm_num)
  have hfloor1 : ⌊(29 : ℚ) / 100 * (2 : ℚ) ^ ((52 : ℤ) - (-2))⌋
      = 5224175567749775 :=
    floor_eq_of _ _ (by norm_num) (by norm_num)
  have hrne1 := rne_eq_low _ _ hfloor1 (by norm_num)
  have hfl1 : fl ((29 : ℚ) / 100)
      = (5224175567749775 : ℚ) * (2 : ℚ) ^ ((-54) : ℤ) := by
    rw [fl_eq_pos _ (by norm_num) _ hilog1, hrne1]
    norm_num
  have hilog2y : ilog2 ((5224175567749775 : ℚ) * (2 : ℚ) ^ ((-54) : ℤ) * 100)
      = 4 :=
    ilog2_eq_of _ _ (by norm_num) (by norm_num)
  have hfloor2 : ⌊(5224175567749775 : ℚ) * (2 : ℚ) ^ ((-54) : ℤ) * 100 *
      (2 : ℚ) ^ ((52 : ℤ) - 4)⌋ = 8162774324609023 :=
    floor_eq_of _ _ (by norm_num) (by norm_num)
  have hrne2 := rne_eq_low _ _ hfloor2 (by norm_num)
  have hfl2 : fl ((5224175567749775 : ℚ) * (2 : ℚ) ^ ((-54) : ℤ) * 100)
      = (8162774324609023 : ℚ) * (2 : ℚ) ^ ((-48) : ℤ) := by
    rw [fl_eq_pos _ (by norm_num) _ hilog2y, hrne2]
    norm_num
  have hfloor3 : ⌊(8162774324609023 : ℚ) * (2 : ℚ) ^ ((-48) : ℤ)⌋ = 28 :=
    floor_eq_of _ _ (by norm_num) (by norm_num)
  unfold pyFloatScore
  rw [hq, hfl1, hfl2, hfloor3]
  rfl

/-- The double-evaluated percentage never exceeds 100 when the count is at
most the total. -/
lemma pyFloatScore_le_100 (c t : Nat) (h : c ≤ t) : pyFloatScore c t ≤ 100 := by
  have hu0 : (0 : ℚ) ≤ (c : ℚ) / (t : ℚ) := by positivity
  have hu1 : (c : ℚ) / (t : ℚ) ≤ 1 := by
    rcases Nat.eq_zero_or_pos t with ht | ht
    · subst ht
      simp
    · rw [div_le_one (by exact_mod_cast ht)]
      exact_mod_cast h
  have h53 : (0 : ℚ) < 2 ^ 53 := by positivity
  have hvU := (fl_bounds ((c : ℚ) / (t : ℚ)) hu0).2
  have hv1 : fl ((c : ℚ) / (t : ℚ)) ≤ 1 + 1 / 2 ^ 53 := by
    have hd : (c : ℚ) / (t : ℚ) / 2 ^ 53 ≤ 1 / 2 ^ 53 := by gcongr
    linarith
  have hy0 : (0 : ℚ) ≤ fl ((c : ℚ) / (t : ℚ)) * 100 := by
    have := fl_nonneg ((c : ℚ) / (t : ℚ))
    positivity
  have hyU := (fl_bounds (fl ((c : ℚ) / (t : ℚ)) * 100) hy0).2
  have hyB : fl ((c : ℚ) / (t : ℚ)) * 100 ≤ 100 + 100 / 2 ^ 53 := by linarith
  have hy101 : fl ((c : ℚ) / (t : ℚ)) * 100 ≤ 101 := by
    have hsmall : (100 : ℚ) / 2 ^ 53 ≤ 1 := by
      rw [div_le_one h53]
      norm_num
    linarith
  have hyd : fl ((c : ℚ) / (t : ℚ)) * 100 / 2 ^ 53 ≤ 101 / 2 ^ 53 := by gcongr
  have h201 : (101 : ℚ) / 2 ^ 53 + 100 / 2 ^ 53 < 1 := by
    rw [div_add_div_same, div_lt_one h53]
    norm_num
  have hfinal : fl (fl ((c : ℚ) / (t : ℚ)) * 100) < 101 := by linarith
  have hfloor : ⌊fl (fl ((c : ℚ) / (t : ℚ)) * 100)⌋ < 101 :=
    Int.floor_lt.mpr (by exact_mod_cast hfinal)
  unfold pyFloatScore
  omega

/-! ## Claim theorems for the pixel differ -/

/-- All-black 10x10 base image for the score counterexample. -/
def imgBase10 : Img := ⟨10, 10, fun _ _ => (0, 0, 0)⟩

/-- 10x10 compare image with exactly 29 white (hence divergent) pixels. -/
def imgComp10 : Img :=
  ⟨10, 10, fun x y => if x + 10 * y < 29 then (255, 255, 255) else (0, 0, 0)⟩

set_option maxRecDepth 8000 in
/-- C2 counterexample: on a 10x10 canvas with exactly 29 divergent pixels
the program scores 28 — the binary64 evaluation of (29/100)*100 rounds to
just below 29 and int() truncates — while the exact
floor(divergence_count / total_pixels * 100) of the claim is 29. -/
theorem C2_counterexample :
    (process_image_diff (fun i _ _ => i) imgBase10 imgComp10).diff_score = 28 ∧
      (∑ y ∈ Finset.range 10, ∑ x ∈ Finset.range 10,
        if 15 < pixDist (imgBase10.pix x y) (imgComp10.pix x y) then (1 : Nat)
        else 0) = 29 ∧
      Nat.floor (((29 : ℕ) : ℚ) / ((100 : ℕ) : ℚ) * 100) = 29 ∧
      (28 : Nat) ≠ 29 := by
  have hcount : (coords 10 10).countP (divergentB imgBase10 imgComp10) = 29 := by
    decide
  refine ⟨?_, by decide, ?_, by norm_num⟩
  · show pyFloatScore
      ((coords 10 10).countP (divergentB imgBase10 imgComp10)) (10 * 10) = 28
    rw [hcount]
    exact pyFloatScore_29_100
  · rw [floor_score]

/-- C2 (amended): after resizing both decoded images to the common minimum
dimensions, every pixel with Manhattan channel distance strictly above 15
becomes pure red in the diff image and every other pixel is the base
pixel with each channel scaled by 0.3 and truncated (exact: the floor);
the diff_score is int() of the IEEE binary64 evaluation of
divergent_count / total_pixels * 100 — which can fall one below the exact
floor of the original claim — where the divergent count is the number of
coordinates whose distance exceeds 15, and the score is an integer
between 0 and 100. -/
theorem C2_pixel_classification
    (resize : Img → Nat → Nat → Img) (img1 img2 : Img) (w h : Nat) (a b : Img)
    (hw : w = min img1.width img2.width) (hh : h = min img1.height img2.height)
    (ha : a = resize img1 w h) (hb : b = resize img2 w h) :
    (∀ x y, 15 < pixDist (a.pix x y) (b.pix x y) →
       (process_image_diff resize img1 img2).diffImage.pix x y = (255, 0, 0)) ∧
    (∀ x y, pixDist (a.pix x y) (b.pix x y) ≤ 15 →
       (process_image_diff resize img1 img2).diffImage.pix x y =
         (Nat.floor (((a.pix x y).1 : ℚ) * 3 / 10),
          Nat.floor (((a.pix x y).2.1 : ℚ) * 3 / 10),
          Nat.floor (((a.pix x y).2.2 : ℚ) * 3 / 10))) ∧
    ((process_image_diff resize img1 img2).diff_score =
       pyFloatScore (∑ y2 ∈ Finset.range h, ∑ x2 ∈ Finset.range w,
         if 15 < pixDist (a.pix x2 y2) (b.pix x2 y2) then (1 : Nat) else 0)
         (w * h)) ∧
    (process_image_diff resize img1 img2).diff_score ≤ 100 := by
  subst hw hh ha hb
  refine ⟨?_, ?_, ?_, ?_⟩
  · intro x y hd
    show diffPix _ _ = _
    rw [diffPix, if_pos (by simpa [pdThreshold] using hd)]
  · intro x y hd
    show diffPix _ _ = _
    rw [diffPix, if_neg (by simpa [pdThreshold] using Nat.not_lt.mpr hd)]
    simp [dimPix, floor_three_tenths, targetDims]
  · show pyFloatScore _ _ = _
    rw [countP_coords]
    simp [divergentB, pdThreshold, targetDims]
  · show pyFloatScore _ _ ≤ 100
    apply pyFloatScore_le_100
    calc (coords (targetDims img1 img2).1 (targetDims img1 img2).2).countP
          (divergentB (resize img1 (targetDims img1 img2).1 (targetDims img1 img2).2)
            (resize img2 (targetDims img1 img2).1 (targetDims img1 img2).2))
        ≤ (coords (targetDims img1 img2).1 (targetDims img1 img2).2).length :=
          List.countP_le_length _
      _ = (targetDims img1 img2).2 * (targetDims img1 img2).1 := coords_length _ _
      _ = (targetDims img1 img2).1 * (targetDims img1 img2).2 := Nat.mul_comm _ _

/-- Witness for C2: a 1-by-1 image diffed against itself under an identity
resize has a score of at most 100. -/
theorem C2_pixel_classification_witness :
    (process_image_diff (fun i _ _ => i) (Img.mk 1 1 (fun _ _ => (10, 20, 30)))
      (Img.mk 1 1 (fun _ _ => (10, 20, 30)))).diff_score ≤ 100 :=
  (C2_pixel_classification (fun i _ _ => i)
    (Img.mk 1 1 (fun _ _ => (10, 20, 30))) (Img.mk 1 1 (fun _ _ => (10, 20, 30)))
    _ _ _ _ rfl rfl rfl rfl).2.2.2

/-- C6: the pixel differ operates on the component-wise minimum of the two
image sizes, so no image is upscaled in either dimension, the produced
diff image has exactly those dimensions, and a 100x200 image against a
150x180 image is compared on a 100x180 canvas. -/
theorem C6_resize_to_min :
    (∀ (resize : Img → Nat → Nat → Img) (i1 i2 : Img),
       (process_image_diff resize i1 i2).diffImage.width = min i1.width i2.width ∧
       (process_image_diff resize i1 i2).diffImage.height = min i1.height i2.height) ∧
    (∀ i1 i2 : Img,
       (targetDims i1 i2).1 ≤ i1.width ∧ (targetDims i1 i2).1 ≤ i2.width ∧
       (targetDims i1 i2).2 ≤ i1.height ∧ (targetDims i1 i2).2 ≤ i2.height) ∧
    (∀ f g : Nat → Nat → RGB,
       targetDims (Img.mk 100 200 f) (Img.mk 150 180 g) = (100, 180)) :=
  ⟨fun _ _ _ => ⟨rfl, rfl⟩,
   fun _ _ => ⟨Nat.min_le_left _ _, Nat.min_le_right _ _,
     Nat.min_le_left _ _, Nat.min_le_right _ _⟩,
   fun _ _ => rfl⟩

/-- C10: the diff score is symmetric in the two image arguments: both
orders resize to the same target dimensions and the Manhattan channel
distance is symmetric, so the divergent-pixel count and the score agree. -/
theorem C10_score_symmetric (resize : Img → Nat → Nat → Img) (i1 i2 : Img) :
    (process_image_diff resize i1 i2).diff_score =
      (process_image_diff resize i2 i1).diff_score := by
  show pyFloatScore
        ((coords (targetDims i1 i2).1 (targetDims i1 i2).2).countP
          (divergentB (resize i1 _ _) (resize i2 _ _)))
        ((targetDims i1 i2).1 * (targetDims i1 i2).2) =
      pyFloatScore
        ((coords (targetDims i2 i1).1 (targetDims i2 i1).2).countP
          (divergentB (resize i2 _ _) (resize i1 _ _)))
        ((targetDims i2 i1).1 * (targetDims i2 i1).2)
  have hdims : targetDims i2 i1 = targetDims i1 i2 := by
    simp [targetDims, Nat.min_comm]
  rw [hdims]
  have hpred : divergentB (resize i2 (targetDims i1 i2).1 (targetDims i1 i2).2)
        (resize i1 (targetDims i1 i2).1 (targetDims i1 i2).2) =
      divergentB (resize i1 (targetDims i1 i2).1 (targetDims i1 i2).2)
        (resize i2 (targetDims i1 i2).1 (targetDims i1 i2).2) := by
    funext xy
    simp [divergentB, pixDist_comm]
  rw [hpred]

/-! ## Snapshot extraction (src/main.py, extraction_script, lines 3010-3048)

The tree walk visits every element node under the body in document order;
for each node it reads the computed style and the bounding rect with no
try/catch around either call, then applies the visibility filter and the
text/IMG/BUTTON/INPUT inclusion rule.  Style and rect retrieval are
modelled as one fallible step per node; JS numbers are rationals. -/

/-- The computed style values the extraction script reads. -/
structure CompStyle where
  display : String
  visibility : String
  color : String
  backgroundColor : String
  fontFamily : String
  fontSize : String
  fontWeight : String
  textAlign : String
deriving DecidableEq, Repr

/-- A bounding rect as returned by getBoundingClientRect. -/
structure Rect4 where
  x : ℚ
  y : ℚ
  width : ℚ
  height : ℚ
deriving DecidableEq, Repr

deriving instance DecidableEq for Except

/-- One element node encountered by the tree walker.  retrieval models the
getComputedStyle and getBoundingClientRect calls, which may throw (for
example on a node detached mid-traversal); hasDirectText models whether
some direct child text node has non-whitespace content. -/
structure NodeInfo where
  tagName : String
  id : String
  classList : List String
  innerText : Option String
  hasDirectText : Bool
  retrieval : Except String (CompStyle × Rect4)
deriving DecidableEq, Repr

/-- The element record pushed for a qualifying node. -/
structure Snapshot where
  tag : String
  id : String
  classes : List String
  text : String
  rect : Rect4
  styles : Styles
deriving DecidableEq, Repr

/-- The record literal pushed by the extraction script: innerText trimmed
and truncated to 200 characters (empty when absent), rect offset by the
scroll position, and the six computed style properties. -/
def mkSnapshot (n : NodeInfo) (st : CompStyle) (r : Rect4) (sx sy : ℚ) :
    Snapshot :=
  { tag := n.tagName
    id := n.id
    classes := n.classList
    text := match n.innerText with
      | none => ""
      | some s => s.trim.take 200
    rect := ⟨r.x + sx, r.y + sy, r.width, r.height⟩
    styles := ⟨some st.color, some st.backgroundColor, some st.fontFamily,
      some st.fontSize, some st.fontWeight, some st.textAlign⟩ }

/-- The extraction walk: for each node in document order, force the
style/rect retrieval (no try/catch in the script, so a throw aborts the
whole evaluate call), skip invisible nodes, and push a record for nodes
with direct text or an IMG/BUTTON/INPUT tag. -/
def extraction_script (sx sy : ℚ) :
    List NodeInfo → Except String (List Snapshot)
  | [] => Except.ok []
  | n :: ns =>
    match n.retrieval with
    | Except.error e => Except.error e
    | Except.ok (st, r) =>
      match extraction_script sx sy ns with
      | Except.error e => Except.error e
      | Except.ok rest =>
        if r.width = 0 ∨ r.height = 0 ∨ st.display = "none" ∨
            st.visibility = "hidden" then
          Except.ok rest
        else if n.hasDirectText ∨ n.tagName = "IMG" ∨ n.tagName = "BUTTON" ∨
            n.tagName = "INPUT" then
          Except.ok (mkSnapshot n st r sx sy :: rest)
        else Except.ok rest

def styleOkC : CompStyle :=
  ⟨"block", "visible", "rgb(0, 0, 0)", "rgb(255, 255, 255)", "Arial",
    "16px", "400", "left"⟩

def rectOkC : Rect4 := ⟨0, 0, 100, 20⟩

/-- A node whose style/rect retrieval throws. -/
def nodeBad : NodeInfo := ⟨"DIV", "", [], some "x", true, Except.error "detached"⟩

/-- A visible node with direct text whose retrieval succeeds. -/
def nodeGood : NodeInfo :=
  ⟨"H1", "", [], some "Hello", true, Except.ok (styleOkC, rectOkC)⟩

/-! ## Claim theorems for the snapshot extraction -/

/-- C4 counterexample: a node whose style/rect retrieval throws is not
skipped; the whole extraction aborts with that error, even though the
following qualifying node would have produced a snapshot on its own. -/
theorem C4_counterexample :
    extraction_script 0 0 [nodeBad, nodeGood] = Except.error "detached" ∧
      extraction_script 0 0 [nodeGood] =
        Except.ok [mkSnapshot nodeGood styleOkC rectOkC 0 0] ∧
      extraction_script 0 0 [nodeBad, nodeGood] ≠
        Except.ok [mkSnapshot nodeGood styleOkC rectOkC 0 0] := by
  refine ⟨rfl, ?_, ?_⟩
  · simp only [extraction_script, nodeGood]
    norm_num [mkSnapshot, rectOkC, styleOkC]
    decide
  · intro h
    exact Except.noConfusion h

/-- C4 (amended): the extraction script has no per-node recovery: the walk
yields a snapshot list exactly when the style/rect retrieval of every
visited node succeeds, and a single throwing node aborts the whole
extraction with an error. -/
theorem C4_throw_aborts_walk (sx sy : ℚ) :
    ∀ nodes : List NodeInfo,
      (∃ e, extraction_script sx sy nodes = Except.error e) ↔
        ∃ n ∈ nodes, ∃ e, n.retrieval = Except.error e := by
  intro nodes
  induction nodes with
  | nil => simp [extraction_script]
  | cons n ns ih =>
    constructor
    · rintro ⟨e, he⟩
      cases hr : n.retrieval with
      | error e2 => exact ⟨n, List.mem_cons_self _ _, e2, hr⟩
      | ok str =>
        obtain ⟨st, r⟩ := str
        cases hrec : extraction_script sx sy ns with
        | error e3 =>
          obtain ⟨m, hm, hme⟩ := ih.mp ⟨e3, hrec⟩
          exact ⟨m, List.mem_cons_of_mem _ hm, hme⟩
        | ok rest =>
          exfalso
          simp only [extraction_script, hr, hrec] at he
          split at he
          · exact Except.noConfusion he
          · split at he
            · exact Except.noConfusion he
            · exact Except.noConfusion he
    · rintro ⟨m, hm, e, hme⟩
      rcases List.mem_cons.mp hm with hc | hc
      · subst hc
        exact ⟨e, by simp only [extraction_script, hme]⟩
      · cases hr : n.retrieval with
        | error e2 => exact ⟨e2, by simp only [extraction_script, hr]⟩
        | ok str =>
          obtain ⟨st, r⟩ := str
          obtain ⟨e3, he3⟩ := ih.mpr ⟨m, hc, e, hme⟩
          exact ⟨e3, by simp only [extraction_script, hr, he3]⟩

/-- Witness for C4: the throwing node in a concrete walk makes the whole
extraction return an error. -/
theorem C4_throw_aborts_walk_witness :
    ∃ e, extraction_script 0 0 [nodeBad, nodeGood] = Except.error e :=
  (C4_throw_aborts_walk 0 0 [nodeBad, nodeGood]).mpr
    ⟨nodeBad, by simp, "detached", rfl⟩

/-! ## Comparison orchestration
(src/main.py, compare_images_logic 3006-3084 and the persistence part of
process_image_diff 3086-3158)

Effect model over abstract step outcomes.  compare_images_logic: the outer
try wraps capture/navigation/extraction; its except clause only prints and
passes (no status write).  The DOM diff and its json dump sit in an inner
try whose except also only prints, then the pixel phase runs regardless.
process_image_diff: on success it saves the diff image, adds the
VisualAuditResult and, only if the session row exists, commits it together
with the completed status; its except clause writes only the error status;
an uncommitted add is discarded on close. -/

inductive CaptureOutcome where
  | fail
  | ok
deriving DecidableEq, Repr

/-- Outcome of compare_dom_elements plus the diff_report.json dump. -/
inductive DomOutcome where
  | fail
  | ok
deriving DecidableEq, Repr

/-- Outcome of the pixel phase: image decode failure, failure after the
diff computation (saving or db work), or success with a score. -/
inductive PixelOutcome where
  | decodeFail
  | saveFail (score : Nat)
  | ok (score : Nat)
deriving DecidableEq, Repr

/-- Persisted effects of one comparison run. -/
structure RunState where
  domArtifactWritten : Bool
  diffImageSaved : Bool
  resultPersisted : Bool
  statusWrites : List String
deriving DecidableEq, Repr

/-- Effect model of the persistence part of process_image_diff. -/
def runProcessImageDiff (sessionExists : Bool) : PixelOutcome → RunState
  | PixelOutcome.decodeFail =>
    ⟨false, false, false, if sessionExists then ["error"] else []⟩
  | PixelOutcome.saveFail _ =>
    ⟨false, false, false, if sessionExists then ["error"] else []⟩
  | PixelOutcome.ok _ =>
    ⟨false, true, sessionExists, if sessionExists then ["completed"] else []⟩

/-- Effect model of compare_images_logic: a capture failure reaches the
outer except, which prints and passes; otherwise the DOM diff artifact is
written exactly when the DOM phase succeeds (its failure is swallowed),
and the pixel phase then runs unconditionally. -/
def compare_images_logic (cap : CaptureOutcome) (dom : DomOutcome)
    (sessionExists : Bool) (px : PixelOutcome) : RunState :=
  match cap with
  | CaptureOutcome.fail => ⟨false, false, false, []⟩
  | CaptureOutcome.ok =>
    let r := runProcessImageDiff sessionExists px
    { r with domArtifactWritten := decide (dom = DomOutcome.ok) }

/-! ## Claim theorems for the orchestration -/

/-- C3 counterexample: with capture succeeding, the DOM diff failing and
the pixel phase succeeding, the VisualAuditResult is persisted with
completed status while the DOM diff artifact is absent — partial
persistence the claim rules out. -/
theorem C3_counterexample :
    (compare_images_logic CaptureOutcome.ok DomOutcome.fail true
        (PixelOutcome.ok 5)).resultPersisted = true ∧
      (compare_images_logic CaptureOutcome.ok DomOutcome.fail true
        (PixelOutcome.ok 5)).domArtifactWritten = false ∧
      (compare_images_logic CaptureOutcome.ok DomOutcome.fail true
        (PixelOutcome.ok 5)).statusWrites = ["completed"] := by
  decide

/-- C3 (amended): the DOM diff artifact and the pixel result are persisted
independently: the artifact is written exactly when the DOM phase
succeeds, the result is persisted exactly when the pixel phase succeeds
(regardless of the DOM outcome, whose failure is swallowed), and a pixel
decode failure yields no result and an error status while the DOM
artifact may already be on disk. -/
theorem C3_no_atomic_persistence :
    (∀ (dom : DomOutcome) (px : PixelOutcome),
       (compare_images_logic CaptureOutcome.ok dom true px).domArtifactWritten
         = decide (dom = DomOutcome.ok)) ∧
    (∀ (dom dom2 : DomOutcome) (px : PixelOutcome),
       (compare_images_logic CaptureOutcome.ok dom true px).resultPersisted =
         (compare_images_logic CaptureOutcome.ok dom2 true px).resultPersisted) ∧
    (∀ (dom : DomOutcome) (px : PixelOutcome),
       (compare_images_logic CaptureOutcome.ok dom true px).resultPersisted
           = true ↔ ∃ s, px = PixelOutcome.ok s) ∧
    (∀ (dom : DomOutcome) (px : PixelOutcome), px = PixelOutcome.decodeFail →
       (compare_images_logic CaptureOutcome.ok dom true px).resultPersisted
           = false ∧
         (compare_images_logic CaptureOutcome.ok dom true px).statusWrites
           = ["error"]) := by
  refine ⟨?_, ?_, ?_, ?_⟩
  · intro dom px
    cases px <;> rfl
  · intro dom dom2 px
    cases px <;> rfl
  · intro dom px
    cases px with
    | decodeFail => simp [compare_images_logic, runProcessImageDiff]
    | saveFail s => simp [compare_images_logic, runProcessImageDiff]
    | ok s => simp [compare_images_logic, runProcessImageDiff]
  · intro dom px hpx
    subst hpx
    exact ⟨rfl, rfl⟩

/-- Witness for C3: a concrete decode failure leaves no persisted result
and writes the error status. -/
theorem C3_no_atomic_persistence_witness :
    (compare_images_logic CaptureOutcome.ok DomOutcome.ok true
      PixelOutcome.decodeFail).statusWrites = ["error"] :=
  (C3_no_atomic_persistence.2.2.2 DomOutcome.ok PixelOutcome.decodeFail rfl).2

/-- C5 counterexample: a capture/navigation/extraction failure reaches the
outer except clause, which prints and passes: the session is never marked
error, refuting the claim that every failed comparison marks the session
error. -/
theorem C5_counterexample :
    (compare_images_logic CaptureOutcome.fail DomOutcome.ok true
        (PixelOutcome.ok 0)).statusWrites = [] ∧
      "error" ∉ (compare_images_logic CaptureOutcome.fail DomOutcome.ok true
        (PixelOutcome.ok 0)).statusWrites := by
  decide

/-- C5 (amended): a pixel-phase failure (decode or later) marks the
session error and persists no result and no diff image; a
capture/navigation/extraction failure also persists nothing but leaves the
session status untouched (it is not marked error); the completed status is
only ever written when capture and the pixel phase both succeed, so a
failed comparison never surfaces as a completed zero-score result. -/
theorem C5_failure_reporting :
    (∀ (dom : DomOutcome) (se : Bool) (px : PixelOutcome),
       compare_images_logic CaptureOutcome.fail dom se px
         = ⟨false, false, false, []⟩) ∧
    (∀ (cap : CaptureOutcome) (dom : DomOutcome) (px : PixelOutcome),
       (∀ s, px ≠ PixelOutcome.ok s) →
       (compare_images_logic cap dom true px).resultPersisted = false ∧
         (compare_images_logic cap dom true px).diffImageSaved = false) ∧
    (∀ (dom : DomOutcome) (px : PixelOutcome),
       (∀ s, px ≠ PixelOutcome.ok s) →
       (compare_images_logic CaptureOutcome.ok dom true px).statusWrites
         = ["error"]) ∧
    (∀ (cap : CaptureOutcome) (dom : DomOutcome) (se : Bool) (px : PixelOutcome),
       "completed" ∈ (compare_images_logic cap dom se px).statusWrites →
       cap = CaptureOutcome.ok ∧ ∃ s, px = PixelOutcome.ok s) := by
  refine ⟨?_, ?_, ?_, ?_⟩
  · intro dom se px
    rfl
  · intro cap dom px hpx
    cases cap with
    | fail => exact ⟨rfl, rfl⟩
    | ok =>
      cases px with
      | decodeFail => exact ⟨rfl, rfl⟩
      | saveFail s => exact ⟨rfl, rfl⟩
      | ok s => exact absurd rfl (hpx s)
  · intro dom px hpx
    cases px with
    | decodeFail => rfl
    | saveFail s => rfl
    | ok s => exact absurd rfl (hpx s)
  · intro cap dom se px hmem
    cases cap with
    | fail => simp [compare_images_logic] at hmem
    | ok =>
      cases px with
      | decodeFail =>
        cases se <;> simp [compare_images_logic, runProcessImageDiff] at hmem
      | saveFail s =>
        cases se <;> simp [compare_images_logic, runProcessImageDiff] at hmem
      | ok s => exact ⟨rfl, s, rfl⟩

/-- Witness for C5: a concrete failure after the diff computation (save or
db work) writes exactly the error status. -/
theorem C5_failure_reporting_witness :
    (compare_images_logic CaptureOutcome.ok DomOutcome.ok true
      (PixelOutcome.saveFail 3)).statusWrites = ["error"] :=
  C5_failure_reporting.2.2.1 DomOutcome.ok (PixelOutcome.saveFail 3)
    (fun s => by simp)

end SiteTester
